import Mathlib

/-!
Verification of the practicando round-lifecycle and guess-tracking core.

The definitions below are a shallow embedding of the TypeScript sources:
- `src/frontend-nextjs/src/app/layout.tsx` (round flashcard game: `handleSubmit`,
  `handleAnswer`, `handleNext`, `onSkip`, `calculateScore`, `initializeApp`,
  `handleFiltersApply`, `handlePronounChange`, `RoundComplete`),
- `src/frontend-nextjs/src/lib/appState.ts` (`getOverlapHighlight`),
- the rounds API client (`submitAnswer`, `submitGuess`),
- the history page (`getScorePercentage`).

JS strings are modelled as `List Char`; JS numbers in the scoring formulas as
exact rationals; fallible / asynchronous calls as `Except` values.  Backend
behaviour that is not part of the sources (the FastAPI round manager) is
modelled from the specification and marked as such in its doc comment.
-/

namespace Practicando

/-! ### Strings: lower-casing, trimming, equality (JS `toLowerCase`, `trim`) -/

/-- Model of JavaScript `String.prototype.toLowerCase` on a single character
(ASCII letters; other characters are unchanged). -/
def lowerChar (c : Char) : Char :=
  match c with
  | 'A' => 'a' | 'B' => 'b' | 'C' => 'c' | 'D' => 'd' | 'E' => 'e' | 'F' => 'f'
  | 'G' => 'g' | 'H' => 'h' | 'I' => 'i' | 'J' => 'j' | 'K' => 'k' | 'L' => 'l'
  | 'M' => 'm' | 'N' => 'n' | 'O' => 'o' | 'P' => 'p' | 'Q' => 'q' | 'R' => 'r'
  | 'S' => 's' | 'T' => 't' | 'U' => 'u' | 'V' => 'v' | 'W' => 'w' | 'X' => 'x'
  | 'Y' => 'y' | 'Z' => 'z'
  | other => other

/-- Whitespace test used by the model of JavaScript `String.prototype.trim`. -/
def isWsChar (c : Char) : Bool :=
  c == ' ' || c == '\t' || c == '\n' || c == '\r'

/-- Model of `toLowerCase` on a whole string. -/
def lowerList (s : List Char) : List Char := s.map lowerChar

/-- Model of `trim`: drop whitespace from both ends. -/
def trimList (s : List Char) : List Char :=
  ((s.dropWhile isWsChar).reverse.dropWhile isWsChar).reverse

/-! ### Data model: guesses and scores (types/flashcard.ts, §3 of the spec) -/

/-- A Guess: one question instance of a round (interface `Guess` in
`types/flashcard.ts`, extended with the `skipped` flag the server model
carries). -/
structure SGuess where
  id : Nat
  verb : List Char
  pronoun : List Char
  tense : List Char
  mood : List Char
  correct_answer : List Char
  user_answer : Option (List Char) := none
  is_correct : Option Bool := none
  skipped : Bool := false
  deriving DecidableEq, Repr

/-- The running score of a round (`RoundState.score`). -/
structure Score where
  correct : Nat
  total : Nat
  deriving DecidableEq, Repr

/-- `calculateScore` from `layout.tsx` (lines 1355-1359): `answered` are the
guesses whose `user_answer` is neither `null` nor `undefined`; `correct`
counts those of them with `is_correct === true`. -/
def calculateScore (guesses : List SGuess) : Score :=
  let answered := guesses.filter (fun g => g.user_answer.isSome)
  { correct := (answered.filter (fun g => g.is_correct == some true)).length
    total := answered.length }

/-! ### Answer judging (`handleSubmit`, layout.tsx lines 941-967 and 236-243) -/

/-- The correctness test of the round flashcard's `handleSubmit`
(layout.tsx line 945):
`userAnswer.toLowerCase().trim() === guess.correct_answer.toLowerCase()`.
Only the user's answer is trimmed; the stored correct answer is merely
lower-cased. -/
def judgeRound (correctAnswer userAnswer : List Char) : Bool :=
  trimList (lowerList userAnswer) == lowerList correctAnswer

/-- The correctness test of the legacy `Flashcard.handleSubmit`
(layout.tsx line 240):
`userAnswer.toLowerCase().trim() === (question.answer || '').toLowerCase()`. -/
def judgeLegacy (answer : Option (List Char)) (userAnswer : List Char) : Bool :=
  trimList (lowerList userAnswer) == lowerList (answer.getD [])

/-- Modelled from the spec: `normalize` "lower-cases and trims" its argument
(§4.3).  Used to compare the spec's symmetric normalization law with the
code's `judgeRound`. -/
def specNormalize (s : List Char) : List Char := trimList (lowerList s)

/-! ### The per-guess submit/skip machine (Flashcard component, layout.tsx) -/

/-- Modelled from the spec: the Guess Tracker's `skip(guessId)` finalization
(§4.3).  The backend endpoint reached through `submitSkip` is not part of the
sources (only its caller `onSkip` in layout.tsx is); the spec says skip
"finalizes the Guess with `skipped=true`, `userAnswer=null`, `isCorrect=false`,
regardless of retry state". -/
def skipGuess (g : SGuess) : SGuess :=
  { g with skipped := true, user_answer := none, is_correct := some false }

/-- What a submit or skip does to the card, besides updating the guess. -/
inductive CardOutcome where
  /-- The empty-input guard fired (`if (!userAnswer.trim()) return`). -/
  | noop : CardOutcome
  /-- Retry branch: the attempt is discarded, nothing is revealed. -/
  | retryPending : CardOutcome
  /-- The guess was finalized with the given correctness. -/
  | finalized : Bool → CardOutcome
  /-- The guess was skipped. -/
  | skipped : CardOutcome
  deriving DecidableEq, Repr

/-- A write sent to the persistence layer by the card. -/
inductive PersistCall where
  /-- `submitGuess(guessId, userAnswer, isCorrect)`. -/
  | answer : List Char → Bool → PersistCall
  /-- `submitSkip(guessId)`. -/
  | skip : PersistCall
  deriving DecidableEq, Repr

/-- An event on the flashcard: submitting the typed answer, or skipping. -/
inductive CardEvent where
  | submit : List Char → CardEvent
  | skip : CardEvent
  deriving DecidableEq, Repr

/-- The result of one card event: the guess afterwards, the component's
`hasRetried` flag afterwards, what happened, and what was persisted. -/
structure CardStep where
  guess : SGuess
  hasRetried : Bool
  outcome : CardOutcome
  persisted : Option PersistCall
  deriving DecidableEq, Repr

/-- One step of the Flashcard component (`handleSubmit`, layout.tsx
lines 941-967, and `onSkip`, lines 1669-1690 plus the spec-modelled
`skipGuess`).  `handleSubmit`: an empty (all-whitespace) input is ignored;
an incorrect answer with `allowRetry` set and no retry consumed yet is
discarded and only flips `hasRetried`; any other submit finalizes the guess
with the judged correctness and persists it.  A skip finalizes via
`skipGuess` and resets the card (the component remounts on the next guess,
so `hasRetried` is `false` afterwards). -/
def cardStep (allowRetry hasRetried : Bool) (g : SGuess) (ev : CardEvent) : CardStep :=
  match ev with
  | .skip =>
      { guess := skipGuess g, hasRetried := false,
        outcome := .skipped, persisted := some .skip }
  | .submit ans =>
      if trimList ans = [] then
        { guess := g, hasRetried := hasRetried, outcome := .noop, persisted := none }
      else
        let ok := judgeRound g.correct_answer ans
        if !ok && allowRetry && !hasRetried then
          { guess := g, hasRetried := true, outcome := .retryPending, persisted := none }
        else
          { guess := { g with user_answer := some ans, is_correct := some ok },
            hasRetried := hasRetried,
            outcome := .finalized ok,
            persisted := some (.answer ans ok) }

/-! ### Round-level client state (FlashcardGame, layout.tsx lines 1258-1703) -/

/-- `RoundState` of the client (guesses, cursor, completion flag, score). -/
structure RState where
  guesses : List SGuess
  currentGuessIndex : Nat
  isComplete : Bool
  score : Score
  deriving DecidableEq, Repr

/-- Replace the element at index `i` by `f` of it (the
`updatedGuesses[prev.currentGuessIndex] = {...}` update of `handleAnswer`). -/
def modifyAt (gs : List SGuess) (i : Nat) (f : SGuess → SGuess) : List SGuess :=
  match gs, i with
  | [], _ => []
  | g :: rest, 0 => f g :: rest
  | g :: rest, n + 1 => g :: modifyAt rest n f

/-- `handleAnswer` (layout.tsx lines 1361-1389): write `user_answer` and
`is_correct` into the current guess, recompute the score with
`calculateScore`, and fire the persistence call in the background.  The
persistence call's outcome `persistOutcome` is received asynchronously and
never read: the new state is built before (and independently of) it. -/
def handleAnswer (st : RState) (correct : Bool) (userAnswer : List Char)
    (persistOutcome : Except (List Char) Unit) : RState :=
  let updated := modifyAt st.guesses st.currentGuessIndex
    (fun g => { g with user_answer := some userAnswer, is_correct := some correct })
  { st with guesses := updated, score := calculateScore updated }

/-- `submitGuess` (rounds API client, `src/unnamed/part_005` lines 177-198):
the whole fetch is wrapped in `try`/`catch`; a non-ok response is only
logged, and any thrown error is caught and swallowed.  The function's
result never carries an error. -/
def submitGuess (fetchResult : Except (List Char) Nat) : Except (List Char) Unit :=
  match fetchResult with
  | .ok _status => .ok ()
  | .error _e => .ok ()

/-- The request body built by the legacy `submitAnswer` (rounds API client,
`src/unnamed/part_005` lines 154-175). -/
structure GuessPayload where
  guess_id : Nat
  user_answer : List Char
  is_correct : Bool
  deriving DecidableEq, Repr

/-- Legacy `submitAnswer(roundId, guessId, answer)`: the body it PUTs to
`/api/rounds/guesses/{id}`.  The source hard-codes `is_correct: true`
("This should be passed from the caller"). -/
def submitAnswerPayload (roundId guessId : Nat) (answer : List Char) : GuessPayload :=
  { guess_id := guessId, user_answer := answer, is_correct := true }

/-- An operation of the playing loop, as dispatched by the `FlashcardGame`
component. -/
inductive GOp where
  /-- `handleAnswer(correct, userAnswer)` (after a finalizing submit). -/
  | submit : Bool → List Char → GOp
  /-- `handleNext()`. -/
  | next : GOp
  /-- The `onSkip` callback (layout.tsx lines 1669-1690). -/
  | skip : GOp
  deriving DecidableEq, Repr

/-- One operation on the round state.  `submit` is `handleAnswer` (the
persistence outcome is irrelevant, see `handleAnswer`); `next` is
`handleNext` (lines 1391-1420); `skip` is `onSkip` (lines 1669-1690), which
fires `submitSkip` in the background, advances the cursor or completes the
round, and touches neither `guesses` nor `score`. -/
def applyOp (st : RState) (op : GOp) : RState :=
  match op with
  | .submit c a => handleAnswer st c a (.ok ())
  | .next =>
      if st.currentGuessIndex + 1 ≥ st.guesses.length then
        { st with currentGuessIndex := st.guesses.length - 1, isComplete := true }
      else
        { st with currentGuessIndex := st.currentGuessIndex + 1 }
  | .skip =>
      if st.currentGuessIndex ≥ st.guesses.length - 1 then
        { st with isComplete := true }
      else
        { st with currentGuessIndex := st.currentGuessIndex + 1 }

/-- A sequence of operations, applied left to right. -/
def applyOps (st : RState) (ops : List GOp) : RState := ops.foldl applyOp st

/-- The round state set up when a round is loaded (`initializeApp`,
layout.tsx lines 1302-1311: resume path). -/
def initState (gs : List SGuess) : RState :=
  { guesses := gs, currentGuessIndex := 0, isComplete := false,
    score := calculateScore gs }

/-! ### Percentage scoring (layout.tsx lines 1142, 1653; part_002 164-167) -/

/-- `RoundComplete` (layout.tsx line 1142):
`score.total > 0 ? Math.round((score.correct / score.total) * 100) : 0`.
JS numbers are modelled as exact rationals; `Math.round` (round half towards
positive infinity on non-negative arguments) is Mathlib's `round`. -/
def roundCompletePercentage (c t : Nat) : Int :=
  if 0 < t then round ((c : ℚ) / t * 100) else 0

/-- The score chip of `FlashcardGame` (layout.tsx line 1653):
`total > 0 ? Math.round((correct / total) * 100) : 0`. -/
def gameHeaderPercentage (c t : Nat) : Int :=
  if 0 < t then round ((c : ℚ) / t * 100) else 0

/-- `getScorePercentage` of the history page (`src/unnamed/part_002`
lines 164-167): `if (num_questions === 0) return 0;
Math.round((num_correct_answers / num_questions) * 100)`. -/
def getScorePercentage (numCorrect numQuestions : Nat) : Int :=
  if numQuestions = 0 then 0
  else round ((numCorrect : ℚ) / numQuestions * 100)

/-- The spec's formula (§4.3): `round(100 * correct/total)`, defined as 0
when `total` is 0. -/
def specPercentage (c t : Nat) : Int :=
  if t = 0 then 0 else round (100 * (c : ℚ) / t)

/-! ### Pronoun-group expansion (`handlePronounChange`, layout.tsx 673-689) -/

/-- The checked branch of `handlePronounChange`: for each pronoun code in the
option's `includes` list, push it onto the current list unless it is already
there (`if (!newPronouns.includes(pronoun)) newPronouns.push(pronoun)`). -/
def addPronouns (includes : List String) (pronouns : List String) : List String :=
  includes.foldl (fun acc p => if p ∈ acc then acc else acc ++ [p]) pronouns

/-- The unchecked branch of `handlePronounChange`: remove every pronoun code
of the option from the list. -/
def removePronouns (includes : List String) (pronouns : List String) : List String :=
  pronouns.filter (fun p => ¬ p ∈ includes)

/-! ### Round manager (server model and the client decision points) -/

/-- A round's lifecycle status (§3). -/
inductive RStatus where
  | active
  | completed
  deriving DecidableEq, Repr

/-- A stored Round (the fields the single-active-round invariant concerns). -/
structure SRound where
  id : Nat
  status : RStatus
  deriving DecidableEq, Repr

/-- The persistent store of rounds. -/
structure Store where
  rounds : List SRound
  nextId : Nat
  deriving DecidableEq, Repr

/-- The round-manager error relevant here (§7). -/
inductive RoundError where
  | activeRoundExists
  deriving DecidableEq, Repr

/-- Is some stored round active? -/
def hasActiveRound (st : Store) : Bool :=
  st.rounds.any (fun r => r.status == RStatus.active)

/-- Number of active rounds in the store. -/
def activeCount (st : Store) : Nat :=
  st.rounds.countP (fun r => r.status == RStatus.active)

/-- Modelled from the spec: the backend round manager's `createRound` (§4.4;
the FastAPI service behind `POST /api/rounds` is not under the sources, only
its HTTP proxy and callers are).  "fails with `ActiveRoundExists` if an
active Round is already present"; on success it "atomically persists one
Round (status=active)". -/
def createRoundSrv (st : Store) : Except RoundError (Store × SRound) :=
  if hasActiveRound st then .error .activeRoundExists
  else
    let r : SRound := { id := st.nextId, status := .active }
    .ok ({ rounds := st.rounds ++ [r], nextId := st.nextId + 1 }, r)

/-- Modelled from the spec: the backend's `completeRound` (§4.4, not under
the sources): sets `status=completed` on the given round id; idempotent. -/
def setCompleted (rid : Nat) (r : SRound) : SRound :=
  if r.id = rid then { r with status := RStatus.completed } else r

def completeRoundSrv (st : Store) (rid : Nat) : Store :=
  { rounds := st.rounds.map (setCompleted rid), nextId := st.nextId }

/-- Modelled from the spec: the backend's `transitionRound` (§4.4, not under
the sources): "the old round must complete before the new one is created". -/
def transitionRoundSrv (st : Store) (rid : Nat) : Except RoundError (Store × SRound) :=
  createRoundSrv (completeRoundSrv st rid)

/-- What `initializeApp` (layout.tsx lines 1296-1348) decides to do, as a
function of `getActiveRound`'s result: on success it resumes that round and
returns; only on a not-found failure does it call `createRound`. -/
inductive InitAction where
  | resumeActive : InitAction
  | createNewRound : InitAction
  deriving DecidableEq, Repr

/-- The decision structure of `initializeApp`. -/
def initializeAppAction (activeRound : Option (SRound × List SGuess)) : InitAction :=
  match activeRound with
  | some _ => .resumeActive
  | none => .createNewRound

/-- What `handleFiltersApply` (layout.tsx lines 1422-1438) decides to do. -/
inductive ApplyAction where
  /-- Warn, then go through `transitionRound` on confirmation. -/
  | warnAndTransition : ApplyAction
  /-- `startNewRound`, which calls `createRound`. -/
  | startNewRound : ApplyAction
  deriving DecidableEq, Repr

/-- The decision of `handleFiltersApply`: an active, incomplete round routes
the filter change through the warning modal and `transitionRound`; otherwise
a new round is created directly. -/
def handleFiltersApplyAction (currentRound : Option SRound) (isComplete : Bool) :
    ApplyAction :=
  if currentRound.isSome && !isComplete then .warnAndTransition
  else .startNewRound

/-! ### `getOverlapHighlight` (`src/frontend-nextjs/src/lib/appState.ts`) -/

/-- The result record of `getOverlapHighlight` (`OverlapResult`): the
matched part of the correct answer, the rest of it, and the overlap
length. -/
structure OverlapResult where
  pre : List Char
  remainder : List Char
  length : Nat
  deriving DecidableEq, Repr

/-- Length of the longest common prefix of two lists (the `while` loop of
`getOverlapHighlight`). -/
def lcpLen : List Char → List Char → Nat
  | a :: as, b :: bs => if a = b then lcpLen as bs + 1 else 0
  | _, _ => 0

/-- `getOverlapHighlight(correctRaw, userRaw, minLen)` from
`lib/appState.ts` lines 29-48: null-coalesce and trim both inputs, return
`null` if either is empty, compute the longest common prefix of the
lower-cased strings, and return the sliced original-case correct answer if
the overlap reaches `minPrefix`. -/
def getOverlapHighlight (correctRaw userRaw : Option (List Char))
    (minLen : Int) : Option OverlapResult :=
  let correct := trimList (correctRaw.getD [])
  let user := trimList (userRaw.getD [])
  if correct = [] ∨ user = [] then none
  else
    let i := lcpLen (lowerList correct) (lowerList user)
    if (i : Int) ≥ minLen then
      some { pre := correct.take i, remainder := correct.drop i, length := i }
    else none

/-! ### Helper lemmas -/

theorem isWsChar_lowerChar (c : Char) : isWsChar (lowerChar c) = isWsChar c := by
  unfold lowerChar
  split <;> rfl

theorem lowerList_trimList (s : List Char) :
    trimList (lowerList s) = lowerList (trimList s) := by
  unfold trimList lowerList
  simp only [List.dropWhile_map, Function.comp_def, isWsChar_lowerChar,
    ← List.map_reverse]

theorem get?_modifyAt (gs : List SGuess) (i : Nat) (f : SGuess → SGuess) :
    (modifyAt gs i f).get? i = (gs.get? i).map f := by
  induction gs generalizing i with
  | nil => simp [modifyAt]
  | cons g rest ih =>
      cases i with
      | zero => simp [modifyAt]
      | succ n => simpa [modifyAt] using ih n

theorem calculateScore_correct_eq (gs : List SGuess) :
    (calculateScore gs).correct =
      gs.countP (fun g => g.user_answer.isSome && g.is_correct == some true) := by
  have h : (calculateScore gs).correct =
      ((gs.filter (fun g => g.user_answer.isSome)).filter
        (fun g => g.is_correct == some true)).length := rfl
  rw [h, List.filter_filter, ← List.countP_eq_length_filter]
  congr 1
  funext g
  rw [Bool.and_comm]

theorem calculateScore_total_eq (gs : List SGuess) :
    (calculateScore gs).total = gs.countP (fun g => g.user_answer.isSome) := by
  have h : (calculateScore gs).total =
      (gs.filter (fun g => g.user_answer.isSome)).length := rfl
  rw [h, ← List.countP_eq_length_filter]

theorem applyOp_skip_preserves (st : RState) :
    (applyOp st .skip).score = st.score ∧ (applyOp st .skip).guesses = st.guesses := by
  simp only [applyOp]
  split <;> exact ⟨rfl, rfl⟩

theorem score_invariant_applyOps (gs : List SGuess) (ops : List GOp) :
    (applyOps (initState gs) ops).score =
      calculateScore (applyOps (initState gs) ops).guesses := by
  suffices h : ∀ (st : RState) (ops : List GOp),
      st.score = calculateScore st.guesses →
      (applyOps st ops).score = calculateScore (applyOps st ops).guesses from
    h (initState gs) ops rfl
  intro st ops
  induction ops generalizing st with
  | nil => intro h; exact h
  | cons op rest ih =>
      intro h
      refine ih (applyOp st op) ?_
      cases op with
      | submit c a => rfl
      | next =>
          simp only [applyOp]
          split <;> simpa using h
      | skip =>
          simp only [applyOp]
          split <;> simpa using h

/-! ### Claim theorems -/

/-- Claim C7: for every score, the displayed percentage equals
`round(100 * correct / total)` and is defined as 0 when `total` is 0: the
round-complete screen, the in-game score chip and the history page's
`getScorePercentage` all agree with the spec formula, with no
division-by-zero failure. -/
theorem c7_percentage_scoring :
    ∀ c t : Nat,
      roundCompletePercentage c t = specPercentage c t ∧
      gameHeaderPercentage c t = specPercentage c t ∧
      getScorePercentage c t = specPercentage c t ∧
      specPercentage c 0 = 0 := by
  intro c t
  have key : ∀ x : Nat, roundCompletePercentage c x = specPercentage c x := by
    intro x
    unfold roundCompletePercentage specPercentage
    rcases Nat.eq_zero_or_pos x with h | h
    · subst h; norm_num
    · rw [if_pos h, if_neg (Nat.pos_iff_ne_zero.mp h)]
      congr 1
      ring
  refine ⟨key t, key t, ?_, by simp [specPercentage]⟩
  show getScorePercentage c t = specPercentage c t
  unfold getScorePercentage specPercentage
  rcases Nat.eq_zero_or_pos t with h | h
  · subst h; norm_num
  · rw [if_neg (Nat.pos_iff_ne_zero.mp h), if_neg (Nat.pos_iff_ne_zero.mp h)]
    congr 1
    ring

/-- Claim C8: the legacy `submitAnswer` sends `is_correct=true` to the
persistence layer for every round id, guess id and answer, even when the
answer is judged incorrect against the stored correct answer. -/
theorem c8_legacy_submit_defect :
    ∀ (roundId guessId : Nat) (answer correctAnswer : List Char),
      judgeRound correctAnswer answer = false →
      (submitAnswerPayload roundId guessId answer).is_correct = true := by
  intro _r _g _a _ca _h
  rfl

/-- Witness for C8 at a concrete incorrect submission. -/
theorem c8_legacy_submit_defect_witness :
    judgeRound ['s', 'o', 'y'] ['e', 'r', 'e', 's'] = false ∧
    (submitAnswerPayload 1 2 ['e', 'r', 'e', 's']).is_correct = true :=
  ⟨by decide,
   c8_legacy_submit_defect 1 2 ['e', 'r', 'e', 's'] ['s', 'o', 'y'] (by decide)⟩

/-- Claim C9: `submitGuess` never carries an error out (the whole fetch is
wrapped and failures are swallowed), the round state `handleAnswer` builds is
the same whatever the persistence outcome is, and the correctness result and
recomputed score are recorded in that state: the updated guess holds the
submitted answer and judged correctness, and the score is recomputed from the
updated guesses. -/
theorem c9_fire_and_forget :
    (∀ fetchResult, submitGuess fetchResult = Except.ok ()) ∧
    (∀ (st : RState) (c : Bool) (a : List Char) (o o' : Except (List Char) Unit),
      handleAnswer st c a o = handleAnswer st c a o') ∧
    (∀ (st : RState) (c : Bool) (a : List Char) (o : Except (List Char) Unit),
      (handleAnswer st c a o).score = calculateScore (handleAnswer st c a o).guesses) ∧
    (∀ (st : RState) (c : Bool) (a : List Char) (o : Except (List Char) Unit),
      (handleAnswer st c a o).guesses.get? st.currentGuessIndex =
        (st.guesses.get? st.currentGuessIndex).map
          (fun g => { g with user_answer := some a, is_correct := some c })) := by
  refine ⟨?_, ?_, ?_, ?_⟩
  · intro fr
    cases fr <;> rfl
  · intro st c a o o'
    rfl
  · intro st c a o
    rfl
  · intro st c a o
    exact get?_modifyAt st.guesses st.currentGuessIndex _

/-- Claim C1: the retry law of `handleSubmit`.  With `allowRetry=true` and no
retry consumed, a first incorrect (non-empty) submit is discarded: the guess
is untouched (so it stays unanswered), nothing is persisted, nothing is
finalized, and only the `hasRetried` flag flips.  Once `hasRetried` is set,
any submit finalizes the guess regardless of correctness — so at most one
retry occurs per guess.  With `allowRetry=false`, or when the answer is
correct, the first submit already finalizes. -/
theorem c1_retry_law :
    ∀ (g : SGuess) (ans : List Char) (allowRetry hasRetried : Bool),
      (trimList ans ≠ [] → judgeRound g.correct_answer ans = false →
        cardStep true false g (.submit ans) =
          { guess := g, hasRetried := true, outcome := .retryPending,
            persisted := none }) ∧
      (trimList ans ≠ [] →
        cardStep allowRetry true g (.submit ans) =
          { guess := { g with user_answer := some ans,
                              is_correct := some (judgeRound g.correct_answer ans) },
            hasRetried := true,
            outcome := .finalized (judgeRound g.correct_answer ans),
            persisted := some (.answer ans (judgeRound g.correct_answer ans)) }) ∧
      (trimList ans ≠ [] →
        cardStep false hasRetried g (.submit ans) =
          { guess := { g with user_answer := some ans,
                              is_correct := some (judgeRound g.correct_answer ans) },
            hasRetried := hasRetried,
            outcome := .finalized (judgeRound g.correct_answer ans),
            persisted := some (.answer ans (judgeRound g.correct_answer ans)) }) ∧
      (trimList ans ≠ [] → judgeRound g.correct_answer ans = true →
        cardStep allowRetry hasRetried g (.submit ans) =
          { guess := { g with user_answer := some ans, is_correct := some true },
            hasRetried := hasRetried, outcome := .finalized true,
            persisted := some (.answer ans true) }) := by
  intro g ans allowRetry hasRetried
  refine ⟨?_, ?_, ?_, ?_⟩
  · intro hne hwrong
    simp [cardStep, hne, hwrong]
  · intro hne
    simp [cardStep, hne]
  · intro hne
    simp [cardStep, hne]
  · intro hne hright
    simp [cardStep, hne, hright]

/-- Witness for C1: a concrete first incorrect submit with retry allowed is
discarded, and the concrete second submit finalizes. -/
theorem c1_retry_law_witness :
    trimList ['x'] ≠ [] ∧
    judgeRound ['s', 'o', 'y'] ['x'] = false ∧
    cardStep true false ⟨7, [], [], [], [], ['s', 'o', 'y'], none, none, false⟩
        (.submit ['x']) =
      { guess := ⟨7, [], [], [], [], ['s', 'o', 'y'], none, none, false⟩,
        hasRetried := true, outcome := .retryPending, persisted := none } ∧
    cardStep true true ⟨7, [], [], [], [], ['s', 'o', 'y'], none, none, false⟩
        (.submit ['x']) =
      { guess := ⟨7, [], [], [], [], ['s', 'o', 'y'], some ['x'], some false, false⟩,
        hasRetried := true, outcome := .finalized false,
        persisted := some (.answer ['x'] false) } := by
  have h := c1_retry_law ⟨7, [], [], [], [], ['s', 'o', 'y'], none, none, false⟩
    ['x'] true true
  refine ⟨by decide, by decide, h.1 (by decide) (by decide), ?_⟩
  have h2 := h.2.1 (by decide)
  simpa using h2

/-- Claim C2 counterexample: skipping does not increase `score.total`.  In a
two-guess round, after a correct submit the score is `{correct := 1,
total := 1}`; the skip operation then leaves the score exactly as it was,
whereas the claim requires `total` to grow by one. -/
theorem c2_counterexample :
    (applyOp (applyOp
        (initState [⟨1, [], [], [], [], ['a'], none, none, false⟩,
                    ⟨2, [], [], [], [], ['b'], none, none, false⟩])
        (.submit true ['a'])) .skip).score =
      (applyOp
        (initState [⟨1, [], [], [], [], ['a'], none, none, false⟩,
                    ⟨2, [], [], [], [], ['b'], none, none, false⟩])
        (.submit true ['a'])).score ∧
    (applyOp
        (initState [⟨1, [], [], [], [], ['a'], none, none, false⟩,
                    ⟨2, [], [], [], [], ['b'], none, none, false⟩])
        (.submit true ['a'])).score = { correct := 1, total := 1 } ∧
    ¬ ((applyOp (applyOp
        (initState [⟨1, [], [], [], [], ['a'], none, none, false⟩,
                    ⟨2, [], [], [], [], ['b'], none, none, false⟩])
        (.submit true ['a'])) .skip).score.total =
      (applyOp
        (initState [⟨1, [], [], [], [], ['a'], none, none, false⟩,
                    ⟨2, [], [], [], [], ['b'], none, none, false⟩])
        (.submit true ['a'])).score.total + 1) := by
  decide

/-- Claim C2 as amended: after any sequence of submit, next and skip
operations the derived score satisfies
`score.correct = count(user_answer != null AND is_correct == true)` and
`score.total = count(user_answer != null)`; a skip changes neither the
guesses nor the score (skipped guesses are excluded from both counts). -/
theorem c2_score_derivation :
    ∀ (gs : List SGuess) (ops : List GOp),
      ((applyOps (initState gs) ops).score).correct =
        ((applyOps (initState gs) ops).guesses).countP
          (fun g => g.user_answer.isSome && g.is_correct == some true) ∧
      ((applyOps (initState gs) ops).score).total =
        ((applyOps (initState gs) ops).guesses).countP
          (fun g => g.user_answer.isSome) ∧
      (∀ st : RState,
        (applyOp st .skip).score = st.score ∧ (applyOp st .skip).guesses = st.guesses) := by
  intro gs ops
  have hinv := score_invariant_applyOps gs ops
  refine ⟨?_, ?_, applyOp_skip_preserves⟩
  · rw [hinv]
    exact calculateScore_correct_eq _
  · rw [hinv]
    exact calculateScore_total_eq _

/-- Claim C3 counterexample: the submit comparison is not
whitespace-insensitive on the stored correct answer's side.  For the stored
correct answer `"soy "` (trailing blank) and the user answer `"soy"`, the
spec's normalizations agree, yet `handleSubmit` judges the answer
incorrect. -/
theorem c3_normalization_counterexample :
    judgeRound ['s', 'o', 'y', ' '] ['s', 'o', 'y'] = false ∧
    specNormalize ['s', 'o', 'y'] = specNormalize ['s', 'o', 'y', ' '] := by
  decide

/-- Claim C3 as amended: submit judges an answer correct iff
`normalize(userAnswer) == lowercase(correctAnswer)` — the user's answer is
lower-cased and trimmed, the stored correct answer is only lower-cased, never
trimmed.  The legacy Flashcard path judges identically.  When the stored
correct answer carries no surrounding whitespace (`trim` leaves it
unchanged), the spec's symmetric law does hold. -/
theorem c3_normalization :
    ∀ (correctAnswer userAnswer : List Char),
      (judgeRound correctAnswer userAnswer = true ↔
        specNormalize userAnswer = lowerList correctAnswer) ∧
      (judgeLegacy (some correctAnswer) userAnswer =
        judgeRound correctAnswer userAnswer) ∧
      (trimList correctAnswer = correctAnswer →
        (judgeRound correctAnswer userAnswer = true ↔
          specNormalize userAnswer = specNormalize correctAnswer)) := by
  intro ca ua
  refine ⟨beq_iff_eq, rfl, ?_⟩
  intro htrim
  have hfix : specNormalize ca = lowerList ca := by
    unfold specNormalize
    rw [lowerList_trimList, htrim]
  rw [hfix]
  exact beq_iff_eq

/-- Witness for C3: with a whitespace-free stored answer, a concrete padded,
differently-cased user answer is judged correct and the symmetric
normalization law holds. -/
theorem c3_normalization_witness :
    trimList ['s', 'o', 'y'] = ['s', 'o', 'y'] ∧
    (judgeRound ['s', 'o', 'y'] [' ', 'S', 'O', 'Y'] = true ↔
      specNormalize [' ', 'S', 'O', 'Y'] = specNormalize ['s', 'o', 'y']) :=
  ⟨by decide, (c3_normalization ['s', 'o', 'y'] [' ', 'S', 'O', 'Y']).2.2 (by decide)⟩


/-! ### addPronouns helper lemmas -/

theorem addPronouns_cons (q : String) (inc x : List String) :
    addPronouns (q :: inc) x = addPronouns inc (if q ∈ x then x else x ++ [q]) := rfl

theorem mem_addPronouns_of_mem (inc : List String) :
    ∀ (x : List String) (a : String), a ∈ x → a ∈ addPronouns inc x := by
  induction inc with
  | nil => intro x a h; exact h
  | cons q rest ih =>
      intro x a h
      rw [addPronouns_cons]
      refine ih _ a ?_
      split
      · exact h
      · exact List.mem_append_left _ h

theorem mem_addPronouns_of_mem_inc (inc : List String) :
    ∀ (x : List String) (a : String), a ∈ inc → a ∈ addPronouns inc x := by
  induction inc with
  | nil => intro x a h; cases h
  | cons q rest ih =>
      intro x a h
      rw [addPronouns_cons]
      rcases List.mem_cons.mp h with rfl | h
      · refine mem_addPronouns_of_mem rest _ a ?_
        split
        · assumption
        · exact List.mem_append_right _ (List.mem_singleton.mpr rfl)
      · exact ih _ a h

theorem addPronouns_eq_of_subset (inc : List String) :
    ∀ x : List String, (∀ a ∈ inc, a ∈ x) → addPronouns inc x = x := by
  induction inc with
  | nil => intro x _; rfl
  | cons q rest ih =>
      intro x h
      rw [addPronouns_cons, if_pos (h q (List.mem_cons_self q rest))]
      exact ih x (fun a ha => h a (List.mem_cons_of_mem q ha))

theorem nodup_addPronouns (inc : List String) :
    ∀ x : List String, x.Nodup → (addPronouns inc x).Nodup := by
  induction inc with
  | nil => intro x h; exact h
  | cons q rest ih =>
      intro x h
      rw [addPronouns_cons]
      refine ih _ ?_
      split
      · exact h
      · next hq => simp [List.nodup_append, h, hq]

/-- Claim C6: pronoun-group expansion is idempotent and introduces no
duplicates: for every UI-group's `includes` list and every current pronoun
list, applying `handlePronounChange`'s checked-branch expansion twice equals
applying it once, and the expansion of a duplicate-free pronoun list is
duplicate-free. -/
theorem c6_pronoun_expansion :
    ∀ (includes x : List String),
      addPronouns includes (addPronouns includes x) = addPronouns includes x ∧
      (x.Nodup → (addPronouns includes x).Nodup) := by
  intro inc x
  constructor
  · exact addPronouns_eq_of_subset inc _
      (fun a ha => mem_addPronouns_of_mem_inc inc x a ha)
  · exact nodup_addPronouns inc x

/-- Witness for C6: the él/ella group expanded into a concrete filter
state. -/
theorem c6_pronoun_expansion_witness :
    addPronouns ["el", "ella"] (addPronouns ["el", "ella"] ["yo", "tu"]) =
      addPronouns ["el", "ella"] ["yo", "tu"] ∧
    (addPronouns ["el", "ella"] ["yo", "tu"]).Nodup :=
  ⟨(c6_pronoun_expansion ["el", "ella"] ["yo", "tu"]).1,
   (c6_pronoun_expansion ["el", "ella"] ["yo", "tu"]).2 (by decide)⟩

/-- Claim C4: skip finalization.  `skipGuess` finalizes with `skipped=true`,
`userAnswer=null`, `isCorrect=false`; the card's skip step is independent of
the retry state; a skipped guess is excluded from the answered counts that
percentage scoring uses (it changes neither component of `calculateScore`)
while still counting towards the round's question total. -/
theorem c4_skip_finalization :
    (∀ g : SGuess,
      (skipGuess g).skipped = true ∧ (skipGuess g).user_answer = none ∧
      (skipGuess g).is_correct = some false) ∧
    (∀ (allowRetry h h' : Bool) (g : SGuess),
      cardStep allowRetry h g .skip = cardStep allowRetry h' g .skip) ∧
    (∀ (gs : List SGuess) (g : SGuess),
      calculateScore (gs ++ [skipGuess g]) = calculateScore gs ∧
      (gs ++ [skipGuess g]).length = gs.length + 1) := by
  refine ⟨fun g => ⟨rfl, rfl, rfl⟩, fun _ _ _ _ => rfl, fun gs g => ⟨?_, by simp⟩⟩
  show calculateScore (gs ++ [skipGuess g]) = calculateScore gs
  have h1 : (gs ++ [skipGuess g]).filter (fun g => g.user_answer.isSome) =
      gs.filter (fun g => g.user_answer.isSome) := by
    rw [List.filter_append]
    simp [skipGuess]
  unfold calculateScore
  rw [h1]

/-! ### Round-manager lemmas -/

theorem createRoundSrv_ok (st st' : Store) (r : SRound)
    (h : createRoundSrv st = .ok (st', r)) :
    hasActiveRound st = false ∧
    st' = { rounds := st.rounds ++ [{ id := st.nextId, status := .active }],
            nextId := st.nextId + 1 } := by
  unfold createRoundSrv at h
  split at h
  · cases h
  · next hna =>
      cases h
      exact ⟨by simpa using hna, rfl⟩

/-- Claim C5: the single-active-round discipline.  Server side (modelled from
the spec): `createRound` always fails with `ActiveRoundExists` while an
active round exists; a successful `createRound` or `transitionRound` leaves
exactly one active round; `completeRound` never increases the number of
active rounds.  Client side (from the sources): `initializeApp` creates a
round only when `getActiveRound` reported none, and `handleFiltersApply`
routes a filter change on an active, incomplete round through
`transitionRound` rather than `createRound`. -/
theorem c5_single_active_round :
    (∀ st : Store, hasActiveRound st = true →
      createRoundSrv st = .error .activeRoundExists) ∧
    (∀ (st st' : Store) (r : SRound), createRoundSrv st = .ok (st', r) →
      activeCount st' = 1) ∧
    (∀ (st : Store) (rid : Nat),
      activeCount (completeRoundSrv st rid) ≤ activeCount st) ∧
    (∀ (st : Store) (rid : Nat) (st' : Store) (r : SRound),
      transitionRoundSrv st rid = .ok (st', r) → activeCount st' = 1) ∧
    (∀ rd, initializeAppAction (some rd) = .resumeActive) ∧
    (initializeAppAction none = .createNewRound) ∧
    (∀ r : SRound, handleFiltersApplyAction (some r) false = .warnAndTransition) := by
  have hok : ∀ (st st' : Store) (r : SRound), createRoundSrv st = .ok (st', r) →
      activeCount st' = 1 := by
    intro st st' r h
    obtain ⟨hna, rfl⟩ := createRoundSrv_ok st st' r h
    unfold activeCount
    rw [List.countP_append]
    have h0 : st.rounds.countP (fun r => r.status == RStatus.active) = 0 := by
      have hx : st.rounds.any (fun r => r.status == RStatus.active) = false := hna
      refine List.countP_eq_zero.mpr ?_
      intro a ha
      exact List.any_eq_false.mp hx a ha
    simp [h0]
  refine ⟨?_, hok, ?_, ?_, fun _ => rfl, rfl, fun _ => rfl⟩
  · intro st h
    unfold createRoundSrv
    rw [if_pos h]
  · intro st rid
    unfold activeCount completeRoundSrv
    simp only [List.countP_map]
    refine List.countP_mono_left ?_
    intro a _ h
    unfold setCompleted at h
    simp only [Function.comp_apply] at h ⊢
    by_cases hid : a.id = rid
    · rw [if_pos hid] at h
      simp at h
    · rwa [if_neg hid] at h
  · intro st rid st' r h
    exact hok _ _ _ h

/-- Witness for C5: with one concrete active round stored, `createRound`
fails with `ActiveRoundExists`; from the concrete empty store, it succeeds
and exactly one active round exists afterwards. -/
theorem c5_single_active_round_witness :
    hasActiveRound { rounds := [{ id := 1, status := .active }], nextId := 2 } = true ∧
    createRoundSrv { rounds := [{ id := 1, status := .active }], nextId := 2 } =
      .error .activeRoundExists ∧
    createRoundSrv { rounds := [], nextId := 0 } =
      .ok ({ rounds := [{ id := 0, status := .active }], nextId := 1 },
           { id := 0, status := .active }) ∧
    activeCount { rounds := [{ id := 0, status := .active }], nextId := 1 } = 1 := by
  have hcreate : createRoundSrv { rounds := ([] : List SRound), nextId := 0 } =
      .ok ({ rounds := [{ id := 0, status := RStatus.active }], nextId := 1 },
           { id := 0, status := RStatus.active }) := rfl
  exact ⟨by decide, c5_single_active_round.1 _ (by decide), hcreate,
    c5_single_active_round.2.1 _ _ _ hcreate⟩

/-! ### getOverlapHighlight lemmas -/

/-- Claim C10: characterization of `getOverlapHighlight`.  It returns `null`
exactly when either trimmed input is empty or the longest common
case-insensitive prefix is shorter than `minPrefix`; a returned result
carries that prefix length, which is at least `minPrefix`, and its `pre`
and `remainder` concatenate to the trimmed original-case correct answer,
`pre` being its first `length` characters. -/
theorem c10_overlap_highlight :
    ∀ (correctRaw userRaw : Option (List Char)) (minLen : Int),
      (getOverlapHighlight correctRaw userRaw minLen = none ↔
        (trimList (correctRaw.getD []) = [] ∨ trimList (userRaw.getD []) = [] ∨
          (lcpLen (lowerList (trimList (correctRaw.getD [])))
              (lowerList (trimList (userRaw.getD []))) : Int) < minLen)) ∧
      (∀ r : OverlapResult,
        getOverlapHighlight correctRaw userRaw minLen = some r →
          r.length = lcpLen (lowerList (trimList (correctRaw.getD [])))
            (lowerList (trimList (userRaw.getD []))) ∧
          (r.length : Int) ≥ minLen ∧
          r.pre ++ r.remainder = trimList (correctRaw.getD []) ∧
          r.pre = (trimList (correctRaw.getD [])).take r.length) := by
  intro c u m
  simp only [getOverlapHighlight]
  split
  · next hemp =>
      refine ⟨⟨fun _ => Or.elim hemp Or.inl (fun h => Or.inr (Or.inl h)),
        fun _ => rfl⟩, ?_⟩
      intro r h
      exact Option.noConfusion h
  · next hemp =>
      split
      · next hge =>
          constructor
          · constructor
            · intro h
              exact Option.noConfusion h
            · intro hor
              exfalso
              rcases hor with h | h | h
              · exact hemp (Or.inl h)
              · exact hemp (Or.inr h)
              · omega
          · intro r h
            injection h with h
            subst h
            exact ⟨rfl, hge, List.take_append_drop _ _, rfl⟩
      · next hge =>
          refine ⟨⟨fun _ => Or.inr (Or.inr (by omega)), fun _ => rfl⟩, ?_⟩
          intro r h
          exact Option.noConfusion h

/-- Witness for C10 at concrete inputs: a case-insensitive three-character
overlap is returned with the original casing of the correct answer, and a
too-short overlap yields `null`. -/
theorem c10_overlap_highlight_witness :
    getOverlapHighlight (some ['H', 'o', 'l', 'a']) (some ['h', 'o', 'l', 'x']) 3 =
      some { pre := ['H', 'o', 'l'], remainder := ['a'], length := 3 } ∧
    ['H', 'o', 'l'] ++ ['a'] = trimList ['H', 'o', 'l', 'a'] ∧
    getOverlapHighlight (some ['H', 'o', 'l', 'a']) (some ['h', 'x', 'x', 'x']) 3 =
      none := by
  refine ⟨by decide, ?_, ?_⟩
  · exact ((c10_overlap_highlight (some ['H', 'o', 'l', 'a'])
      (some ['h', 'o', 'l', 'x']) 3).2
      { pre := ['H', 'o', 'l'], remainder := ['a'], length := 3 } (by decide)).2.2.1
  · exact ((c10_overlap_highlight (some ['H', 'o', 'l', 'a'])
      (some ['h', 'x', 'x', 'x']) 3).1).mpr (by decide)

end Practicando
